import Mathlib

/-
Verification development for the ground-truth documentation engine
(src/ground_truth.py and src/ground_truth_watcher.py).

The per-file analyzers, the folder aggregator, the ignore-pattern matcher,
the git-history reader and the watcher debounce logic are shallowly embedded
below.  External effects are modelled as oracle inputs:
  - reading a file yields an Except value (error = IOError or
    UnicodeDecodeError raised by open/read),
  - running the Python parser on the decoded text yields an
    Option (List PyNode) (none = SyntaxError raised by ast.parse),
  - running the git subprocess yields a GitResult.
Everything after those boundary points is translated statement by statement
from the Python source.  Machine text is modelled as Lean String / List Char.
-/

set_option autoImplicit false
set_option maxHeartbeats 1000000

namespace GroundTruth

/-! ## Python string primitives used by the source -/

/-- Whitespace class of the Python regexes and of str.strip (ASCII range). -/
def wsPred (c : Char) : Bool :=
  c == ' ' || c == '\t' || c == '\n' || c == '\r' || c == '\x0b' || c == '\x0c'

/-- Python str.strip with no argument: remove leading and trailing whitespace. -/
def pyStrip (s : String) : String :=
  String.mk (((s.toList.dropWhile (fun c => wsPred c)).reverse.dropWhile
    (fun c => wsPred c)).reverse)

/-- Python slicing s[:n] on text, by characters. -/
def stringTake (s : String) (n : Nat) : String :=
  String.mk (s.toList.take n)

/-- Python str.upper on the ASCII names the analyzers capture. -/
def strUpper (s : String) : String :=
  String.mk (s.toList.map Char.toUpper)

/-- Python substring test: sub in s. -/
def strContainsSub (s sub : String) : Bool :=
  (List.range (s.toList.length + 1)).any
    (fun i => sub.toList.isPrefixOf (s.toList.drop i))

/-- Python membership test of one character in a text (c in s). -/
def strHasChar (s : String) (c : Char) : Bool :=
  s.toList.contains c

/-- Python str.startswith. -/
def pyStartsWith (s pre : String) : Bool :=
  pre.toList.isPrefixOf s.toList

/-- Python str.split(sep) for a one-character separator (keeps empties). -/
def splitCharAux (c : Char) : List Char → List Char → List String
  | [], acc => [String.mk acc.reverse]
  | d :: t, acc =>
      if d == c then String.mk acc.reverse :: splitCharAux c t []
      else splitCharAux c t (d :: acc)

def splitChar (s : String) (c : Char) : List String :=
  splitCharAux c s.toList []

/-- Python str.replace for one-character arguments. -/
def charReplace (s : String) (a b : Char) : String :=
  String.mk (s.toList.map (fun c => if c == a then b else c))

/-- Python slicing s[n:] on text, by characters. -/
def dropChars (s : String) (n : Nat) : String :=
  String.mk (s.toList.drop n)

/-- Python sep.join. -/
def joinWith (sep : String) : List String → String
  | [] => ""
  | [x] => x
  | x :: y :: xs => x ++ sep ++ joinWith sep (y :: xs)

/-- Python ', '.join over the positional parameter names. -/
def joinParams (args : List String) : String :=
  joinWith ", " args

/-! ## A small regex engine

The two analyzers use a fixed set of re patterns, each built from literals,
character classes, greedy star/plus, option groups and left-biased
alternation.  The engine below implements exactly the semantics used by those
patterns: backtracking, greedy quantifiers, leftmost search, non-overlapping
findall, numbered capture groups (an unmatched group reads as the empty
string, as re.findall reports it).  Fuel bounds the backtracking depth; every
recursive call decreases it, and the bounds passed by the wrappers exceed the
work the embedded patterns can perform on the given text. -/

inductive Rx where
  | eps : Rx
  | ch : (Char → Bool) → Rx
  | str : List Char → Rx
  | seq : Rx → Rx → Rx
  | alt : Rx → Rx → Rx
  | star : Rx → Rx
  | plus : Rx → Rx
  | opt : Rx → Rx
  | grp : Nat → Rx → Rx

/-- Match a literal character sequence at the head of the input. -/
def dropLit : List Char → List Char → Option (List Char)
  | [], s => some s
  | _ :: _, [] => none
  | c :: cs, d :: ds => if c == d then dropLit cs ds else none

/-- Continuation-passing backtracking matcher.  The continuation receives the
remaining input and the capture stack (most recent first). -/
def rxRun : Nat → Rx → List Char → List (Nat × List Char) →
    (List Char → List (Nat × List Char) → Option (List Char × List (Nat × List Char))) →
    Option (List Char × List (Nat × List Char))
  | 0, _, _, _, _ => none
  | _ + 1, Rx.eps, s, caps, k => k s caps
  | _ + 1, Rx.ch p, s, caps, k =>
      match s with
      | [] => none
      | c :: t => if p c then k t caps else none
  | _ + 1, Rx.str cs, s, caps, k =>
      match dropLit cs s with
      | some t => k t caps
      | none => none
  | fu + 1, Rx.seq a b, s, caps, k =>
      rxRun fu a s caps (fun t c2 => rxRun fu b t c2 k)
  | fu + 1, Rx.alt a b, s, caps, k =>
      match rxRun fu a s caps k with
      | some r => some r
      | none => rxRun fu b s caps k
  | fu + 1, Rx.star a, s, caps, k =>
      match rxRun fu a s caps (fun t c2 => rxRun fu (Rx.star a) t c2 k) with
      | some r => some r
      | none => k s caps
  | fu + 1, Rx.plus a, s, caps, k =>
      rxRun fu a s caps (fun t c2 => rxRun fu (Rx.star a) t c2 k)
  | fu + 1, Rx.opt a, s, caps, k =>
      match rxRun fu a s caps k with
      | some r => some r
      | none => k s caps
  | fu + 1, Rx.grp n a, s, caps, k =>
      rxRun fu a s caps (fun t c2 => k t ((n, s.take (s.length - t.length)) :: c2))

/-- Highest capture-group index of a pattern. -/
def rxGroupCount : Rx → Nat
  | Rx.eps => 0
  | Rx.ch _ => 0
  | Rx.str _ => 0
  | Rx.seq a b => Nat.max (rxGroupCount a) (rxGroupCount b)
  | Rx.alt a b => Nat.max (rxGroupCount a) (rxGroupCount b)
  | Rx.star a => rxGroupCount a
  | Rx.plus a => rxGroupCount a
  | Rx.opt a => rxGroupCount a
  | Rx.grp n a => Nat.max n (rxGroupCount a)

/-- Read the groups 1..n out of a capture stack; an unset group is "". -/
def capsToGroups (n : Nat) (caps : List (Nat × List Char)) : List String :=
  (List.range n).map (fun i =>
    match caps.find? (fun p => p.1 == i + 1) with
    | some p => String.mk p.2
    | none => "")

/-- Fuel that exceeds the backtracking work of the embedded patterns. -/
def rxFuel (s : List Char) : Nat :=
  (s.length + 8) * (s.length + 8) * 64

/-- Match the pattern at the start of the input; report consumed length and
captures of the first (leftmost, greedy) success. -/
def rxMatchHere (r : Rx) (s : List Char) : Option (Nat × List (Nat × List Char)) :=
  match rxRun (rxFuel s) r s [] (fun rest caps => some (rest, caps)) with
  | some p => some (s.length - p.1.length, p.2)
  | none => none

/-- Python re.search: leftmost match, returning the capture groups. -/
def rxSearchAux : Nat → Rx → List Char → Option (List String)
  | 0, _, _ => none
  | fu + 1, r, s =>
      match rxMatchHere r s with
      | some (_, caps) => some (capsToGroups (rxGroupCount r) caps)
      | none =>
          match s with
          | [] => none
          | _ :: t => rxSearchAux fu r t

def rxSearchS (r : Rx) (s : String) : Option (List String) :=
  rxSearchAux (s.toList.length + 1) r s.toList

/-- Python re.findall: non-overlapping leftmost matches, each reported as its
list of capture groups. -/
def rxFindallAux : Nat → Rx → List Char → List (List String)
  | 0, _, _ => []
  | fu + 1, r, s =>
      match rxMatchHere r s with
      | some (len, caps) =>
          capsToGroups (rxGroupCount r) caps :: rxFindallAux fu r (s.drop (Nat.max len 1))
      | none =>
          match s with
          | [] => []
          | _ :: t => rxFindallAux fu r t

def rxFindallS (r : Rx) (s : String) : List (List String) :=
  rxFindallAux (s.toList.length + 1) r s.toList

/-! ## Character classes of the source patterns -/

def quoteP (c : Char) : Bool := c == '"' || c == '\''

def nonQuoteP (c : Char) : Bool := !(quoteP c)

/-- The class [A-Z_]. -/
def upperUnderP (c : Char) : Bool := ('A' ≤ c && c ≤ 'Z') || c == '_'

/-- Python regex class \w restricted to the ASCII text the source handles. -/
def wordP (c : Char) : Bool := c.isAlphanum || c == '_'

/-- The class [:\s] of the TODO patterns. -/
def colonWsP (c : Char) : Bool := c == ':' || wsPred c

/-- The class . of the TODO patterns (anything but a newline). -/
def notNlP (c : Char) : Bool := !(c == '\n')

def lbrace : Char := Char.ofNat 123

def rbrace : Char := Char.ofNat 125

/-- The class [^}] of the JavaScript patterns. -/
def notRBraceP (c : Char) : Bool := !(c == rbrace)

def rLit (s : String) : Rx := Rx.str s.toList

/-- Shared shape ["']([^"']+) ending most of the quoted-capture patterns. -/
def quotedGrp (n : Nat) : Rx :=
  Rx.seq (Rx.ch quoteP) (Rx.grp n (Rx.plus (Rx.ch nonQuoteP)))

/-! ## The concrete patterns of _analyze_python_file -/

/-- Pattern os\.environ\.get\(["']([^"']+) -/
def rxEnvPy1 : Rx := Rx.seq (rLit "os.environ.get(") (quotedGrp 1)

/-- Pattern os\.environ\[["']([^"']+) -/
def rxEnvPy2 : Rx := Rx.seq (rLit "os.environ[") (quotedGrp 1)

/-- Pattern os\.getenv\(["']([^"']+) -/
def rxEnvPy3 : Rx := Rx.seq (rLit "os.getenv(") (quotedGrp 1)

/-- Pattern config\(["']([^"']+) -/
def rxEnvPy4 : Rx := Rx.seq (rLit "config(") (quotedGrp 1)

/-- Pattern settings\.([A-Z_]+) -/
def rxEnvPy5 : Rx := Rx.seq (rLit "settings.") (Rx.grp 1 (Rx.plus (Rx.ch upperUnderP)))

/-- Pattern env\.([A-Z_]+) -/
def rxEnvPy6 : Rx := Rx.seq (rLit "env.") (Rx.grp 1 (Rx.plus (Rx.ch upperUnderP)))

def pyEnvPatterns : List Rx :=
  [rxEnvPy1, rxEnvPy2, rxEnvPy3, rxEnvPy4, rxEnvPy5, rxEnvPy6]

/-- The comment-marker alternation (#|//|/\*) of the Python TODO pattern. -/
def rxMarkPy : Rx := Rx.alt (rLit "#") (Rx.alt (rLit "//") (rLit "/*"))

/-- The tag alternation (TODO|FIXME|HACK|XXX) of the Python TODO pattern. -/
def rxTagPy : Rx :=
  Rx.alt (rLit "TODO") (Rx.alt (rLit "FIXME") (Rx.alt (rLit "HACK") (rLit "XXX")))

/-- Pattern (#|//|/\*)\s*(TODO|FIXME|HACK|XXX)[:\s]*(.*) -/
def rxTodoPy : Rx :=
  Rx.seq (Rx.grp 1 rxMarkPy)
    (Rx.seq (Rx.star (Rx.ch wsPred))
      (Rx.seq (Rx.grp 2 rxTagPy)
        (Rx.seq (Rx.star (Rx.ch colonWsP)) (Rx.grp 3 (Rx.star (Rx.ch notNlP))))))

/-- The substrings whose presence on a line triggers the Python TODO scan. -/
def pyTodoTags : List String := ["TODO", "FIXME", "HACK", "XXX"]

/-! ## The concrete patterns of _analyze_javascript_file -/

/-- Pattern import\s+(?:\x7b[^\x7d]+\x7d|\*\s+as\s+\w+|\w+)\s+from\s+["']([^"']+) -/
def rxJsImp1 : Rx :=
  Rx.seq (rLit "import")
    (Rx.seq (Rx.plus (Rx.ch wsPred))
      (Rx.seq
        (Rx.alt (Rx.seq (Rx.ch (fun c => c == lbrace))
                  (Rx.seq (Rx.plus (Rx.ch notRBraceP)) (Rx.ch (fun c => c == rbrace))))
          (Rx.alt (Rx.seq (rLit "*")
                    (Rx.seq (Rx.plus (Rx.ch wsPred))
                      (Rx.seq (rLit "as") (Rx.seq (Rx.plus (Rx.ch wsPred)) (Rx.plus (Rx.ch wordP))))))
            (Rx.plus (Rx.ch wordP))))
        (Rx.seq (Rx.plus (Rx.ch wsPred))
          (Rx.seq (rLit "from") (Rx.seq (Rx.plus (Rx.ch wsPred)) (quotedGrp 1))))))

/-- Pattern const\s+\w+\s*=\s*require\(["']([^"']+) -/
def rxJsImp2 : Rx :=
  Rx.seq (rLit "const")
    (Rx.seq (Rx.plus (Rx.ch wsPred))
      (Rx.seq (Rx.plus (Rx.ch wordP))
        (Rx.seq (Rx.star (Rx.ch wsPred))
          (Rx.seq (rLit "=")
            (Rx.seq (Rx.star (Rx.ch wsPred)) (Rx.seq (rLit "require(") (quotedGrp 1)))))))

/-- Pattern import\(["']([^"']+) -/
def rxJsImp3 : Rx := Rx.seq (rLit "import(") (quotedGrp 1)

def jsImportPatterns : List Rx := [rxJsImp1, rxJsImp2, rxJsImp3]

/-- The keyword alternation (?:class|function|const|let|var). -/
def rxJsDeclKw : Rx :=
  Rx.alt (rLit "class")
    (Rx.alt (rLit "function") (Rx.alt (rLit "const") (Rx.alt (rLit "let") (rLit "var"))))

/-- Pattern export\s+(?:default\s+)?(?:class|function|const|let|var)\s+(\w+) -/
def rxJsExp1 : Rx :=
  Rx.seq (rLit "export")
    (Rx.seq (Rx.plus (Rx.ch wsPred))
      (Rx.seq (Rx.opt (Rx.seq (rLit "default") (Rx.plus (Rx.ch wsPred))))
        (Rx.seq rxJsDeclKw
          (Rx.seq (Rx.plus (Rx.ch wsPred)) (Rx.grp 1 (Rx.plus (Rx.ch wordP)))))))

/-- Pattern export\s+\x7b([^\x7d]+)\x7d -/
def rxJsExp2 : Rx :=
  Rx.seq (rLit "export")
    (Rx.seq (Rx.plus (Rx.ch wsPred))
      (Rx.seq (Rx.ch (fun c => c == lbrace))
        (Rx.seq (Rx.grp 1 (Rx.plus (Rx.ch notRBraceP))) (Rx.ch (fun c => c == rbrace)))))

/-- Pattern module\.exports\s*=\s*\x7b([^\x7d]+)\x7d -/
def rxJsExp3 : Rx :=
  Rx.seq (rLit "module.exports")
    (Rx.seq (Rx.star (Rx.ch wsPred))
      (Rx.seq (rLit "=")
        (Rx.seq (Rx.star (Rx.ch wsPred))
          (Rx.seq (Rx.ch (fun c => c == lbrace))
            (Rx.seq (Rx.grp 1 (Rx.plus (Rx.ch notRBraceP))) (Rx.ch (fun c => c == rbrace)))))))

def jsExportPatterns : List Rx := [rxJsExp1, rxJsExp2, rxJsExp3]

/-- The HTTP-verb alternation (get|post|put|delete|patch). -/
def rxVerbLower : Rx :=
  Rx.alt (rLit "get")
    (Rx.alt (rLit "post") (Rx.alt (rLit "put") (Rx.alt (rLit "delete") (rLit "patch"))))

/-- The capitalized verb alternation (Get|Post|Put|Delete|Patch). -/
def rxVerbCap : Rx :=
  Rx.alt (rLit "Get")
    (Rx.alt (rLit "Post") (Rx.alt (rLit "Put") (Rx.alt (rLit "Delete") (rLit "Patch"))))

/-- Pattern fetch\(["']([^"']+) -/
def rxJsEp1 : Rx := Rx.seq (rLit "fetch(") (quotedGrp 1)

/-- Pattern axios\.(get|post|put|delete|patch)\(["']([^"']+) -/
def rxJsEp2 : Rx :=
  Rx.seq (rLit "axios.") (Rx.seq (Rx.grp 1 rxVerbLower) (Rx.seq (rLit "(") (quotedGrp 2)))

/-- Pattern app\.(get|post|put|delete|patch)\(["']([^"']+) -/
def rxJsEp3 : Rx :=
  Rx.seq (rLit "app.") (Rx.seq (Rx.grp 1 rxVerbLower) (Rx.seq (rLit "(") (quotedGrp 2)))

/-- Pattern router\.(get|post|put|delete|patch)\(["']([^"']+) -/
def rxJsEp4 : Rx :=
  Rx.seq (rLit "router.") (Rx.seq (Rx.grp 1 rxVerbLower) (Rx.seq (rLit "(") (quotedGrp 2)))

/-- Pattern @(Get|Post|Put|Delete|Patch)\(["']([^"']+) -/
def rxJsEp5 : Rx :=
  Rx.seq (rLit "@") (Rx.seq (Rx.grp 1 rxVerbCap) (Rx.seq (rLit "(") (quotedGrp 2)))

def jsEndpointPatterns : List Rx := [rxJsEp1, rxJsEp2, rxJsEp3, rxJsEp4, rxJsEp5]

/-- The comment-marker alternation (//|/\*) of the JavaScript TODO pattern. -/
def rxMarkJs : Rx := Rx.alt (rLit "//") (rLit "/*")

/-- The tag alternation (TODO|FIXME|HACK) of the JavaScript TODO pattern. -/
def rxTagJs : Rx := Rx.alt (rLit "TODO") (Rx.alt (rLit "FIXME") (rLit "HACK"))

/-- Pattern (//|/\*)\s*(TODO|FIXME|HACK)[:\s]*(.*) -/
def rxTodoJs : Rx :=
  Rx.seq (Rx.grp 1 rxMarkJs)
    (Rx.seq (Rx.star (Rx.ch wsPred))
      (Rx.seq (Rx.grp 2 rxTagJs)
        (Rx.seq (Rx.star (Rx.ch colonWsP)) (Rx.grp 3 (Rx.star (Rx.ch notNlP))))))

def jsTodoTags : List String := ["TODO", "FIXME", "HACK"]

/-- Pattern process\.env\.([A-Z_]+) -/
def rxEnvJs1 : Rx := Rx.seq (rLit "process.env.") (Rx.grp 1 (Rx.plus (Rx.ch upperUnderP)))

/-- Pattern import\.meta\.env\.([A-Z_]+) -/
def rxEnvJs2 : Rx := Rx.seq (rLit "import.meta.env.") (Rx.grp 1 (Rx.plus (Rx.ch upperUnderP)))

/-- Pattern env\.([A-Z_]+) -/
def rxEnvJs3 : Rx := Rx.seq (rLit "env.") (Rx.grp 1 (Rx.plus (Rx.ch upperUnderP)))

def jsEnvPatterns : List Rx := [rxEnvJs1, rxEnvJs2, rxEnvJs3]

/-! ## The Python syntax-tree fragment the analyzer inspects

ast.parse is external; its result is modelled by the statement shapes the
walk of _analyze_python_file distinguishes.  A decorator is recorded by the
only shape the code inspects: a Call whose func is an Attribute (receiver
name when the receiver is a plain Name, else none; the attribute name; and
the first argument when it is a Constant, rendered as text).  Every other
decorator shape falls into otherDec.  Statements that are none of
Import / ImportFrom / FunctionDef / AsyncFunctionDef / ClassDef but carry a
statement body (If, While, With, Try, ...) are collapsed into other, which
is all ast.walk needs from them. -/

inductive PyDec where
  | callAttr : Option String → String → Option String → PyDec
  | otherDec : PyDec

inductive PyNode where
  | imp : List String → PyNode
  | importFrom : Option String → Nat → List String → PyNode
  | funcDef : Bool → String → List String → List PyDec → List PyNode → PyNode
  | classDef : String → List PyNode → PyNode
  | other : List PyNode → PyNode

/-- Child statements, as ast.iter_child_nodes exposes them to the walk. -/
def PyNode.children : PyNode → List PyNode
  | PyNode.imp _ => []
  | PyNode.importFrom _ _ _ => []
  | PyNode.funcDef _ _ _ _ body => body
  | PyNode.classDef _ body => body
  | PyNode.other body => body

mutual

def PyNode.size : PyNode → Nat
  | PyNode.imp _ => 1
  | PyNode.importFrom _ _ _ => 1
  | PyNode.funcDef _ _ _ _ body => 1 + sizeL body
  | PyNode.classDef _ body => 1 + sizeL body
  | PyNode.other body => 1 + sizeL body

def sizeL : List PyNode → Nat
  | [] => 0
  | n :: t => PyNode.size n + sizeL t

end

theorem sizeL_append (a b : List PyNode) : sizeL (a ++ b) = sizeL a + sizeL b := by
  induction a with
  | nil => simp [sizeL]
  | cons n t ih => simp [sizeL, ih]; omega

theorem sizeL_children_lt (n : PyNode) : sizeL n.children < PyNode.size n := by
  cases n <;> simp [PyNode.children, PyNode.size, sizeL]

theorem size_children_exact (n : PyNode) : PyNode.size n = 1 + sizeL n.children := by
  cases n <;> simp [PyNode.children, PyNode.size, sizeL]

/-- ast.walk worker: breadth-first traversal by a queue that pops from the
front and appends the children of the popped node.  The fuel argument is the
total node count of the queue, which each step reduces by exactly one, so
the traversal is complete when started with fuel sizeL q. -/
def walkAux : Nat → List PyNode → List PyNode
  | 0, _ => []
  | _ + 1, [] => []
  | fu + 1, n :: rest => n :: walkAux fu (rest ++ n.children)

/-- ast.walk over a statement queue. -/
def walk (q : List PyNode) : List PyNode := walkAux (sizeL q) q

theorem walk_nil : walk [] = [] := rfl

theorem walk_cons (n : PyNode) (rest : List PyNode) :
    walk (n :: rest) = n :: walk (rest ++ n.children) := by
  show walkAux (sizeL (n :: rest)) (n :: rest)
      = n :: walkAux (sizeL (rest ++ n.children)) (rest ++ n.children)
  have h1 : sizeL (n :: rest) = sizeL (rest ++ n.children) + 1 := by
    have := size_children_exact n
    simp [sizeL, sizeL_append]
    omega
  rw [h1]
  rfl

/-! ## The per-file fact record -/

/-- The analysis dict both analyzers initialize and return; all six keys are
present from the start, each holding a list. -/
structure Analysis where
  imports : List String
  imports_from : List String
  exports : List String
  todos : List String
  env_vars : List String
  api_endpoints : List String
deriving Repr, DecidableEq

def emptyAnalysis : Analysis :=
  { imports := [], imports_from := [], exports := [], todos := [], env_vars := [],
    api_endpoints := [] }

/-! ## Structural extraction of _analyze_python_file -/

/-- Python string repetition s * n. -/
def strTimes (s : String) : Nat → String
  | 0 => ""
  | n + 1 => s ++ strTimes s n

/-- The rel_path computation: '../' * (level - 1) if level > 1 else './'. -/
def relLevelPath (level : Nat) : String :=
  if level > 1 then strTimes "../" (level - 1) else "./"

/-- The module_path computation for one ImportFrom node. -/
def importFromPath (module : Option String) (level : Nat) : String :=
  let moduleStr := match module with
    | some m => m
    | none => ""
  if level > 0 then
    if moduleStr == "" then relLevelPath level
    else relLevelPath level ++ charReplace moduleStr '.' '/'
  else moduleStr

/-- Decorator inspection: router/app/bp attribute calls with an HTTP-method
name and a constant first argument register an API endpoint. -/
def decoStep (fname : String) (a : Analysis) (d : PyDec) : Analysis :=
  match d with
  | PyDec.callAttr objName methodName firstArg =>
      match objName with
      | some obj =>
          if (obj == "router" || obj == "app" || obj == "bp") &&
              (methodName == "get" || methodName == "post" || methodName == "put" ||
                methodName == "delete" || methodName == "patch" || methodName == "route") then
            match firstArg with
            | some path =>
                let mtd := if methodName == "route" then "GET" else strUpper methodName
                { a with api_endpoints :=
                    a.api_endpoints ++ [mtd ++ " " ++ path ++ " â†’ " ++ fname ++ "()"] }
            | none => a
          else a
      | none => a
  | PyDec.otherDec => a

/-- One step of the walk loop of _analyze_python_file. -/
def stepNode (a : Analysis) (n : PyNode) : Analysis :=
  match n with
  | PyNode.imp names => { a with imports := a.imports ++ names }
  | PyNode.importFrom module level names =>
      let module_path := importFromPath module level
      { a with imports_from := a.imports_from ++ names.map (fun nm =>
          if nm == "*" then module_path ++ ".*" else module_path ++ "." ++ nm) }
  | PyNode.funcDef _ name args decorators _ =>
      let a1 :=
        if !(pyStartsWith name "_") then
          { a with exports := a.exports ++ ["def " ++ name ++ "(" ++ joinParams args ++ ")"] }
        else a
      decorators.foldl (decoStep name) a1
  | PyNode.classDef name _ =>
      if !(pyStartsWith name "_") then { a with exports := a.exports ++ ["class " ++ name] }
      else a
  | PyNode.other _ => a

/-- The whole AST pass: the walk starts from the module, whose own node
matches none of the isinstance branches, so only the statements matter. -/
def structuralFold (body : List PyNode) : Analysis :=
  (walk body).foldl stepNode emptyAnalysis

/-! ## Line-oriented passes shared by both modes -/

/-- The TODO loop: lines numbered from 1; a line holding one of the tag
substrings is searched with the comment pattern, and a hit records
"line i: TAG: message" with the stripped message cut to 60 characters. -/
def todoLines (rx : Rx) (tags : List String) : List String → Nat → List String
  | [], _ => []
  | line :: rest, i =>
      let here :=
        if tags.any (fun t => strContainsSub line t) then
          match rxSearchS rx line with
          | some gs =>
              let tag := gs.getD 1 ""
              let message := pyStrip (gs.getD 2 "")
              ["line " ++ toString i ++ ": " ++ tag ++ ": " ++ stringTake message 60]
          | none => []
        else []
      here ++ todoLines rx tags rest (i + 1)

def pyTodos (content : String) : List String :=
  todoLines rxTodoPy pyTodoTags (splitChar content '\n') 1

def jsTodos (content : String) : List String :=
  todoLines rxTodoJs jsTodoTags (splitChar content '\n') 1

/-- The env-var step of the Python mode: keep a captured name when it is all
upper case or holds an underscore, and only when not already recorded. -/
def pyEnvStep (acc : List String) (m : String) : List String :=
  if strUpper m == m || strHasChar m '_' then
    if !(acc.contains m) then acc ++ [m] else acc
  else acc

def pyEnvVars (content : String) : List String :=
  pyEnvPatterns.foldl
    (fun acc r => ((rxFindallS r content).map (fun gs => gs.getD 0 "")).foldl pyEnvStep acc) []

/-- The env-var step of the JavaScript mode: dedup only. -/
def jsEnvStep (acc : List String) (m : String) : List String :=
  if !(acc.contains m) then acc ++ [m] else acc

def jsEnvVars (content : String) : List String :=
  jsEnvPatterns.foldl
    (fun acc r => ((rxFindallS r content).map (fun gs => gs.getD 0 "")).foldl jsEnvStep acc) []

/-! ## The analyzers, with their exception structure

A Python try/except block is a tryE: run the body in the Except monad and
divert errors into the handler.  The outer handler of both analyzers returns
the analysis dict as built at the failure point; the only failing operation
under it is the file read (the first operation), so the handler value is the
freshly initialized, all-empty record.  The inner handler of the Python mode
catches exactly SyntaxError and re-raises anything else. -/

def tryE {α : Type} (body : Except String α) (handler : String → Except String α) :
    Except String α :=
  match body with
  | Except.ok a => Except.ok a
  | Except.error e => handler e

/-- Outcome of ast.parse on the decoded text: none stands for SyntaxError. -/
def parseOutcome (p : Option (List PyNode)) : Except String (List PyNode) :=
  match p with
  | some tree => Except.ok tree
  | none => Except.error "SyntaxError"

/-- _analyze_python_file, lines 128-229.  readRes is the outcome of
open + read (error = IOError / UnicodeDecodeError for any byte sequence that
does not decode); parseRes is the ast.parse oracle for the decoded text. -/
def analyzePythonFileE (readRes : Except String String)
    (parseRes : Option (List PyNode)) : Except String Analysis :=
  tryE (do
      let content ← readRes
      let base ← tryE (do
          let tree ← parseOutcome parseRes
          pure (structuralFold tree))
        (fun e => if e == "SyntaxError" then pure emptyAnalysis else Except.error e)
      pure { base with todos := pyTodos content, env_vars := pyEnvVars content })
    (fun _ => pure emptyAnalysis)

def analyzePythonFile (readRes : Except String String)
    (parseRes : Option (List PyNode)) : Analysis :=
  match analyzePythonFileE readRes parseRes with
  | Except.ok a => a
  | Except.error _ => emptyAnalysis

/-- The export step of the JavaScript mode: a brace-list capture is split on
commas, stripped, empties dropped; otherwise the capture itself is recorded. -/
def jsExportStep (acc : List String) (m : String) : List String :=
  if strHasChar m ',' then
    (splitChar m ',').foldl (fun ac e =>
      let e2 := pyStrip e
      if e2 == "" then ac else ac ++ [e2]) acc
  else acc ++ [m]

/-- The endpoint step of the JavaScript mode: a two-group match is a
(verb, path) tuple, a one-group match is recorded as captured. -/
def jsEndpointStep (acc : List String) (gs : List String) : List String :=
  match gs with
  | [m] => acc ++ [m]
  | [m, p] => acc ++ [strUpper m ++ " " ++ p]
  | _ => acc

/-- The regex body of _analyze_javascript_file over the decoded text. -/
def jsExtract (content : String) : Analysis :=
  { imports := []
    imports_from :=
      jsImportPatterns.foldl
        (fun acc r => acc ++ (rxFindallS r content).map (fun gs => gs.getD 0 "")) []
    exports :=
      jsExportPatterns.foldl
        (fun acc r => ((rxFindallS r content).map (fun gs => gs.getD 0 "")).foldl
          jsExportStep acc) []
    todos := jsTodos content
    env_vars := jsEnvVars content
    api_endpoints :=
      jsEndpointPatterns.foldl
        (fun acc r => (rxFindallS r content).foldl jsEndpointStep acc) [] }

/-- _analyze_javascript_file, lines 231-322. -/
def analyzeJavascriptFileE (readRes : Except String String) : Except String Analysis :=
  tryE (do
      let content ← readRes
      pure (jsExtract content))
    (fun _ => pure emptyAnalysis)

def analyzeJavascriptFile (readRes : Except String String) : Analysis :=
  match analyzeJavascriptFileE readRes with
  | Except.ok a => a
  | Except.error _ => emptyAnalysis

/-! ## fnmatch

fnmatch.fnmatch on a POSIX platform is fnmatchcase: a full-string match of
the shell glob, where * crosses path separators, ? is one character and
[...] is a character class ([!...] negated, a ] right after the opening is a
literal member, an unclosed [ is a literal bracket). -/

def findClose : List Char → Option (List Char × List Char)
  | [] => none
  | c :: t =>
      if c == ']' then some ([], t)
      else (findClose t).map (fun p => (c :: p.1, p.2))

/-- Parse the body of a [...] class: negation flag, member text, remainder.
A ] right after the opening bracket (or right after the ! negation marker)
is a literal member of the class; an unclosed class yields none. -/
def parseClass (l : List Char) : Option ((Bool × List Char) × List Char) :=
  match l with
  | '!' :: ']' :: t2 => (findClose t2).map (fun p => ((true, ']' :: p.1), p.2))
  | '!' :: t => (findClose t).map (fun p => ((true, p.1), p.2))
  | ']' :: t => (findClose t).map (fun p => ((false, ']' :: p.1), p.2))
  | _ => (findClose l).map (fun p => ((false, p.1), p.2))

/-- Membership of one character in a class body, with c1-c2 ranges; a
trailing or leading dash is a literal member. -/
def classMember : List Char → Char → Bool
  | [], _ => false
  | a :: '-' :: b :: rest, c => (a ≤ c && c ≤ b) || classMember rest c
  | a :: rest, c => (c == a) || classMember rest c

/-- The glob matcher behind fnmatch.fnmatch (POSIX case behaviour, so
identical to fnmatchcase): full-string matching of pattern p against s.
Every recursive call either consumes an input character or, keeping the
input, shortens the pattern (a parsed class hands over a strict suffix of
the pattern), so the fuel the wrapper provides — pattern length plus input
length plus one — is never exhausted. -/
def fnmatchAux : Nat → List Char → List Char → Bool
  | 0, _, _ => false
  | fu + 1, p, s =>
      match p, s with
      | [], [] => true
      | [], _ :: _ => false
      | '*' :: pr, [] => fnmatchAux fu pr []
      | '*' :: pr, c :: sr =>
          fnmatchAux fu pr (c :: sr) || fnmatchAux fu ('*' :: pr) sr
      | '?' :: _, [] => false
      | '?' :: pr, _ :: sr => fnmatchAux fu pr sr
      | '[' :: pr, s2 =>
          (match parseClass pr, s2 with
           | some x, c :: sr =>
               (if x.1.1 then !(classMember x.1.2 c) else classMember x.1.2 c) &&
                 fnmatchAux fu x.2 sr
           | none, c :: sr => (c == '[') && fnmatchAux fu pr sr
           | _, [] => false)
      | c :: pr, d :: sr => (c == d) && fnmatchAux fu pr sr
      | _ :: _, [] => false

def fnmatchList (p s : List Char) : Bool :=
  fnmatchAux (p.length + s.length + 1) p s

/-- fnmatch.fnmatch(name, pattern) on POSIX. -/
def fnmatchB (name pat : String) : Bool :=
  fnmatchList pat.toList name.toList

/-! ## _should_ignore

Paths are modelled as their components relative to the configured root
(str(path.relative_to(root)).split(os.sep)); a path outside the root, whose
relative_to raises ValueError, is handled by shouldIgnoreAbs.  Components
are nonempty and free of the separator, so splitting the joined string gives
back the components. -/

/-- pattern.rstrip of the separator character. -/
def rstripSlash (s : String) : String :=
  String.mk ((s.toList.reverse.dropWhile (fun c => c == '/')).reverse)

def joinSlash (parts : List String) : String :=
  joinWith "/" parts

/-- Lines 60-87: for every prefix of the component list and every pattern,
try the glob on the joined prefix, the equality/glob on every ancestor
prefix, the recursive-descent form, and the literal single-component form. -/
def shouldIgnoreRel (patterns : List String) (parts : List String) : Bool :=
  (List.range parts.length).any (fun i =>
    patterns.any (fun pattern =>
      let clean := rstripSlash pattern
      let joined := joinSlash (parts.take (i + 1))
      fnmatchB joined clean
        || (List.range (i + 1)).any (fun j =>
            let anc := joinSlash (parts.take (j + 1))
            anc == clean || fnmatchB anc clean)
        || (if pyStartsWith pattern "**/" then fnmatchB joined (dropChars pattern 3) else false)
        || (if !(strHasChar clean '/') && !(strHasChar clean '*') then
              (parts.take (i + 1)).any (fun part => part == clean)
            else false)))

/-- The whole _should_ignore: a path that is not under the root (relative_to
raises ValueError) is always ignored. -/
def shouldIgnoreAbs (patterns : List String) (root path : List String) : Bool :=
  if root.isPrefixOf path then shouldIgnoreRel patterns (path.drop root.length)
  else true

/-! ## _analyze_folder -/

/-- One direct child file of a folder, with its read and parse oracles. -/
structure SrcFile where
  name : String
  readRes : Except String String
  parseRes : Option (List PyNode)

/-- pathlib suffix: the last dot of the file name opens the suffix when it is
neither the leading character nor the trailing one. -/
def pathSuffix (name : String) : String :=
  let cs := name.toList
  match cs.reverse.findIdx? (fun c => c == '.') with
  | some k =>
      let i := cs.length - 1 - k
      if 0 < i && i < cs.length - 1 then String.mk (cs.drop i) else ""
  | none => ""

def jsSuffixes : List String := [".js", ".jsx", ".ts", ".tsx", ".mjs"]

/-- The per-file dispatch of _analyze_folder: a .py suffix goes to the Python
analyzer, a JavaScript-family suffix to the regex analyzer, anything else is
skipped (analysis stays None). -/
def fileAnalysisOf (f : SrcFile) : Option Analysis :=
  if pathSuffix f.name == ".py" then some (analyzePythonFile f.readRes f.parseRes)
  else if jsSuffixes.contains (pathSuffix f.name) then
    some (analyzeJavascriptFile f.readRes)
  else none

/-- Python set.add modelled on lists: membership is faithful, the order is a
fixed insertion order. -/
def setAdd (l : List String) (x : String) : List String :=
  if l.contains x then l else l ++ [x]

/-- The folder-level aggregate dict. -/
structure FolderAnalysis where
  all_imports : List String
  all_exports : List String
  all_todos : List String
  all_env_vars : List String
  all_api_endpoints : List String
  imported_by : List String
deriving Repr, DecidableEq

def emptyFolderAnalysis : FolderAnalysis :=
  { all_imports := [], all_exports := [], all_todos := [], all_env_vars := [],
    all_api_endpoints := [], imported_by := [] }

/-- Folding one analyzed file into the aggregate, lines 345-362: only
imports_from feeds all_imports; exports and todos are tagged with the file
name; env vars and endpoints are set-merged. -/
def foldFileFacts (name : String) (fa : FolderAnalysis) (a : Analysis) : FolderAnalysis :=
  { all_imports := a.imports_from.foldl setAdd fa.all_imports
    all_exports := a.exports.foldl (fun s e => setAdd s (name ++ ": " ++ e)) fa.all_exports
    all_todos := fa.all_todos ++ a.todos.map (fun t => name ++ " " ++ t)
    all_env_vars := a.env_vars.foldl setAdd fa.all_env_vars
    all_api_endpoints := a.api_endpoints.foldl setAdd fa.all_api_endpoints
    imported_by := fa.imported_by }

/-- The step of the file loop of _analyze_folder. -/
def folderStep (patterns : List String) (folderParts : List String)
    (fa : FolderAnalysis) (f : SrcFile) : FolderAnalysis :=
  if shouldIgnoreRel patterns (folderParts ++ [f.name]) then fa
  else
    match fileAnalysisOf f with
    | none => fa
    | some a => foldFileFacts f.name fa a

/-- _analyze_folder, lines 324-364, over the direct child files of the
folder (directory entries that are not files never reach the analyzers). -/
def analyzeFolder (patterns : List String) (folderParts : List String)
    (files : List SrcFile) : FolderAnalysis :=
  files.foldl (folderStep patterns folderParts) emptyFolderAnalysis

/-! ## _run_git_command and _get_git_changes

The git subprocess is external; its outcome is the oracle: stdout of a
zero-exit run, a nonzero exit (CalledProcessError, the only caught
exception), or a missing git executable, which makes subprocess.run itself
raise an OSError that _run_git_command does not catch. -/

inductive GitResult where
  | output : String → GitResult
  | exitErr : GitResult
  | noGit : GitResult
deriving Repr, DecidableEq

def runGitCommand : GitResult → Except String (Option String)
  | GitResult.output s => Except.ok (some (pyStrip s))
  | GitResult.exitErr => Except.ok none
  | GitResult.noGit => Except.error "FileNotFoundError"

/-- Python line.split(sep, maxsplit). -/
def splitLimit (s : String) (sep : Char) : Nat → List String
  | 0 => [s]
  | m + 1 =>
      match s.toList.findIdx? (fun c => c == sep) with
      | none => [s]
      | some i =>
          String.mk (s.toList.take i) ::
            splitLimit (String.mk (s.toList.drop (i + 1))) sep m

/-- Python str.split() with no argument over the date field git prints:
whitespace runs separate, empties are dropped. -/
def pySplitWs (s : String) : List String :=
  ((splitChar s ' ').foldl (fun acc w => acc ++ splitChar w '\t') []).filter (fun w => w != "")

structure ChangeRec where
  date : String
  message : String
  hash : String
deriving Repr, DecidableEq

/-- One line of the log loop: an empty line is skipped, a line that does not
split into three parts is skipped, and date.split()[0] raises IndexError
when the date field splits to nothing. -/
def parseGitLine (line : String) : Except String (Option ChangeRec) :=
  if line == "" then Except.ok none
  else
    match splitLimit line '|' 2 with
    | [commitHash, date, message] =>
        (match pySplitWs date with
         | [] => Except.error "IndexError"
         | d :: _ =>
             Except.ok (some
               { date := d, message := stringTake message 100,
                 hash := stringTake commitHash 7 }))
    | _ => Except.ok none

def parseGitLines : List String → Except String (List ChangeRec)
  | [] => Except.ok []
  | line :: rest =>
      match parseGitLine line with
      | Except.error e => Except.error e
      | Except.ok none => parseGitLines rest
      | Except.ok (some r) =>
          match parseGitLines rest with
          | Except.error e => Except.error e
          | Except.ok rs => Except.ok (r :: rs)

/-- _get_git_changes, lines 103-126, for a folder under the root.  The -n 10
bound and the newest-first order are properties of the git log output the
oracle stands for; the falsy test on log_output covers both the None of a
failed command and an empty stdout. -/
def getGitChanges (res : GitResult) : Except String (List ChangeRec) :=
  match runGitCommand res with
  | Except.error e => Except.error e
  | Except.ok none => Except.ok []
  | Except.ok (some out) =>
      if out == "" then Except.ok []
      else parseGitLines (splitChar out '\n')

/-- A log line on which the loop body cannot raise: either it does not split
into exactly three parts, or its date field has a leading token, which is
what git %ai always prints. -/
def gitLineSafe (line : String) : Bool :=
  match splitLimit line '|' 2 with
  | [_, date, _] => !(pySplitWs date).isEmpty
  | _ => true

/-- The record the spec promises for one log line, written beside the
effectful loop so the returned list can be characterized: nothing for an
empty line or one that does not split into three parts, otherwise the
leading whitespace token of the date field, the message cut to 100
characters and the commit id cut to 7 characters. -/
def gitLineRecord (line : String) : Option ChangeRec :=
  if line == "" then none
  else
    match splitLimit line '|' 2 with
    | [commitHash, date, message] =>
        (match pySplitWs date with
         | [] => none
         | d :: _ =>
             some (ChangeRec.mk d (stringTake message 100) (stringTake commitHash 7)))
    | _ => none

/-! ## The watcher (src/ground_truth_watcher.py)

Folders are component lists relative to the watch root, so the root itself
is [] and Path.parent is dropLast (for the root, both the Python parent and
dropLast leave the parent-regeneration guard false).  time.time() is a Nat
clock; the times of a trace are the successive clock readings, so they are
monotone.  The filesystem is the set fs of directories that exist during
the trace, and a regeneration is logged as (folder, time).  The dict
last_update (keyed by str(folder)) is an association list, the set
pending_updates a dedup-insertion list whose order stands for the set
iteration order. -/

def debounceSeconds : Nat := 2

def watchRoot : List String := []

structure WatchState where
  pending_updates : List (List String)
  last_update : List (List String × Nat)
deriving Repr, DecidableEq

def lookupTime (m : List (List String × Nat)) (f : List String) : Nat :=
  match m.find? (fun p => p.1 == f) with
  | some p => p.2
  | none => 0

def storeTime (m : List (List String × Nat)) (f : List String) (t : Nat) :
    List (List String × Nat) :=
  if m.any (fun p => p.1 == f) then m.map (fun p => if p.1 == f then (f, t) else p)
  else m ++ [(f, t)]

/-- _should_process, lines 41-50: within the window the request is refused;
otherwise the timestamp is stamped and the request accepted. -/
def shouldProcess (st : WatchState) (folder : List String) (now : Nat) :
    Bool × WatchState :=
  let last := lookupTime st.last_update folder
  if now - last < debounceSeconds then (false, st)
  else (true, { st with last_update := storeTime st.last_update folder now })

def pendAdd (l : List (List String)) (f : List String) : List (List String) :=
  if l.contains f then l else l ++ [f]

/-- create_ground_truth regenerates the artifact unless the folder is
ignored; a regeneration is recorded as the folder path. -/
def createGroundTruth (patterns : List String) (folder : List String) :
    List (List String) :=
  if shouldIgnoreRel patterns folder then [] else [folder]

/-- The Python parent >= self.root comparison orders paths as component
tuples. -/
def pathLexLe : List String → List String → Bool
  | [], _ => true
  | _ :: _, [] => false
  | a :: l1, b :: l2 => if a == b then pathLexLe l1 l2 else decide (a < b)

/-- Lines 67-70: after the target regeneration, the parent artifact is
rebuilt when the parent differs, exists as a directory, and is at or above
the watch root; no debounce state is consulted or touched for it. -/
def parentRegen (patterns : List String) (fs : List (List String))
    (folder : List String) (now : Nat) : List (List String × Nat) :=
  if !(folder.dropLast == folder) && fs.contains folder.dropLast &&
      pathLexLe watchRoot folder.dropLast then
    (createGroundTruth patterns folder.dropLast).map (fun g => (g, now))
  else []

/-- _update_ground_truth, lines 52-73: a refused request only marks the
folder pending; an accepted one regenerates the folder (if it still exists)
and then its parent. -/
def updateGroundTruth (patterns : List String) (fs : List (List String))
    (st : WatchState) (folder : List String) (now : Nat) :
    WatchState × List (List String × Nat) :=
  match shouldProcess st folder now with
  | (false, st1) =>
      ({ st1 with pending_updates := pendAdd st1.pending_updates folder }, [])
  | (true, st1) =>
      if !(fs.contains folder) then (st1, [])
      else
        (st1, (createGroundTruth patterns folder).map (fun g => (g, now)) ++
          parentRegen patterns fs folder now)

/-- process_pending, lines 115-122: drain the pending set, clear it, and
push every drained folder through _update_ground_truth (which may re-defer
it into the fresh pending set). -/
def processPending (patterns : List String) (fs : List (List String))
    (st : WatchState) (now : Nat) : WatchState × List (List String × Nat) :=
  let folders := st.pending_updates
  let st0 : WatchState := { st with pending_updates := [] }
  folders.foldl (fun acc f =>
    let r := updateGroundTruth patterns fs acc.1 f now
    (r.1, acc.2 ++ r.2)) (st0, [])

/-- A trace event: a change notification resolved to its target folder, or
one tick of the periodic pending sweep. -/
inductive WEvent where
  | change : List String → Nat → WEvent
  | sweep : Nat → WEvent

def runTrace (patterns : List String) (fs : List (List String)) :
    WatchState → List WEvent → WatchState × List (List String × Nat)
  | st, [] => (st, [])
  | st, e :: rest =>
      let r := match e with
        | WEvent.change f t => updateGroundTruth patterns fs st f t
        | WEvent.sweep t => processPending patterns fs st t
      let r2 := runTrace patterns fs r.1 rest
      (r2.1, r.2 ++ r2.2)

def initialWatchState : WatchState := { pending_updates := [], last_update := [] }

/-! ## Export characterizations used to check the walk

exportDescr is the descriptor the walk loop records for one definition node;
collectDefsL collects those descriptors structurally through every nesting
level, and topLevelExportsSpec is the spec reading. -/

/-- The export descriptor of one node: a function or class definition whose
name does not start with an underscore. -/
def exportDescr : PyNode → Option String
  | PyNode.funcDef _ name args _ _ =>
      if pyStartsWith name "_" then none
      else some ("def " ++ name ++ "(" ++ joinParams args ++ ")")
  | PyNode.classDef name _ =>
      if pyStartsWith name "_" then none else some ("class " ++ name)
  | _ => none

/-- Modelled from the spec: the exports the spec sentence describes, namely
the top-level definitions only — no descent into bodies. -/
def topLevelExportsSpec (body : List PyNode) : List String :=
  body.filterMap exportDescr

theorem PyNode.size_pos (n : PyNode) : 1 ≤ PyNode.size n := by
  cases n <;> simp [PyNode.size]

/-- Worker for the structural export collection; the fuel dominates the node
count, and both recursive calls drop below it. -/
def collectDefsAux : Nat → List PyNode → List String
  | 0, _ => []
  | _ + 1, [] => []
  | fu + 1, n :: rest =>
      ((match exportDescr n with
        | some d => [d]
        | none => []) ++ collectDefsAux fu n.children) ++ collectDefsAux fu rest

/-- Export descriptors collected structurally at every nesting depth, in
document order. -/
def collectDefsL (l : List PyNode) : List String := collectDefsAux (sizeL l) l

/-! ## Concrete inputs used by the counterexamples and witnesses -/

/-- A module with a nested function definition inside a public one. -/
def c2Module : List PyNode :=
  [PyNode.funcDef false "f" ["a"] [] [PyNode.funcDef false "g" ["b"] [] []]]

/-- A Python file whose only statement is an absolute import. -/
def c3File : SrcFile :=
  { name := "m.py", readRes := Except.ok "import os",
    parseRes := some [PyNode.imp ["os"]] }

/-- A Python file whose only statement is a level-1 relative from-import. -/
def c3WFile : SrcFile :=
  { name := "w.py", readRes := Except.ok "",
    parseRes := some [PyNode.importFrom (some "utils") 1 ["x"]] }

/-! # Claims -/

/-- C1: for every input handed to the per-file analyzers — any read outcome,
including a failed decode of invalid or binary bytes, and any parse outcome,
including a truncated text that fails to parse — both the declarative-mode
and the curly-brace-mode analyzer finish without an exception escaping (the
Except computation always lands in ok), and on an unreadable input the
returned record is the initialized one with all six fields empty. -/
theorem c1_analyze_never_raises :
    ∀ (readRes : Except String String) (parseRes : Option (List PyNode)),
      (∃ a, analyzePythonFileE readRes parseRes = Except.ok a) ∧
      (∃ b, analyzeJavascriptFileE readRes = Except.ok b) ∧
      analyzePythonFileE (Except.error "UnicodeDecodeError") parseRes
        = Except.ok emptyAnalysis ∧
      analyzeJavascriptFileE (Except.error "UnicodeDecodeError")
        = Except.ok emptyAnalysis := by
  intro readRes parseRes
  refine ⟨?_, ?_, rfl, rfl⟩
  · cases readRes with
    | error e => exact ⟨emptyAnalysis, rfl⟩
    | ok content =>
        cases parseRes with
        | none => exact ⟨_, rfl⟩
        | some tree => exact ⟨_, rfl⟩
  · cases readRes with
    | error e => exact ⟨emptyAnalysis, rfl⟩
    | ok content => exact ⟨_, rfl⟩

/-- C7: when structural parsing of a declarative-mode input fails, the
analyzer leaves every structural field (imports, imports_from, exports,
api_endpoints) empty, yet its TODO scan and env-var scan produce exactly
what they produce on the same text when parsing succeeds with any tree —
structural failure never aborts the whole analysis. -/
theorem c7_parse_failure_scans_run (content : String) (tree : List PyNode) :
    (analyzePythonFile (Except.ok content) none).imports = [] ∧
    (analyzePythonFile (Except.ok content) none).imports_from = [] ∧
    (analyzePythonFile (Except.ok content) none).exports = [] ∧
    (analyzePythonFile (Except.ok content) none).api_endpoints = [] ∧
    (analyzePythonFile (Except.ok content) none).todos
      = (analyzePythonFile (Except.ok content) (some tree)).todos ∧
    (analyzePythonFile (Except.ok content) none).env_vars
      = (analyzePythonFile (Except.ok content) (some tree)).env_vars :=
  ⟨rfl, rfl, rfl, rfl, rfl, rfl⟩

/-- C2 counterexample: the walk of the analyzer visits nested definitions,
so the inner function g of the module def f(a): def g(b) appears among the
exports, while the spec reading (top-level definitions only) excludes it. -/
theorem c2_counterexample :
    (analyzePythonFile (Except.ok "") (some c2Module)).exports
      = ["def f(a)", "def g(b)"] ∧
    topLevelExportsSpec c2Module = ["def f(a)"] ∧
    (analyzePythonFile (Except.ok "") (some c2Module)).exports
      ≠ topLevelExportsSpec c2Module := by
  refine ⟨by decide, by decide, by decide⟩

/-- C3 counterexample: an absolute import statement lands in the per-file
imports list, but _analyze_folder folds only imports_from into the
aggregate, so the aggregated import set of a folder holding just that file
is empty. -/
theorem c3_counterexample :
    (analyzePythonFile c3File.readRes c3File.parseRes).imports = ["os"] ∧
    (analyzeFolder [] [] [c3File]).all_imports = [] := by
  refine ⟨by decide, by decide⟩

/-- C5 counterexample: with the rule set containing the wildcard pattern b*,
the component bx of a/bx/c matches the pattern by glob, yet neither the
directory a/bx nor its descendant a/bx/c is ignored — the component-level
rule fires only for patterns free of wildcards. -/
theorem c5_counterexample :
    fnmatchB "bx" "b*" = true ∧
    shouldIgnoreRel ["b*"] ["a", "bx"] = false ∧
    shouldIgnoreRel ["b*"] ["a", "bx", "c"] = false := by
  refine ⟨by decide, by decide, by decide⟩

/-- C9 counterexample: when the git executable is missing, subprocess.run
raises before any CalledProcessError handling applies, and the exception
propagates out of the history query instead of an empty list coming back. -/
theorem c9_counterexample :
    getGitChanges GitResult.noGit = Except.error "FileNotFoundError" := rfl


/-- C6: a from-import with level 2 and module utils resolves to exactly one
parent-folder marker before utils, the recorded entry being ../utils.name;
level 1 resolves to the current-folder marker, and from level 2 upward each
additional level puts one more parent-folder marker in front. -/
theorem c6_relative_import :
    (∀ nm : String, nm ≠ "*" →
      (analyzePythonFile (Except.ok "")
          (some [PyNode.importFrom (some "utils") 2 [nm]])).imports_from
        = ["../utils." ++ nm]) ∧
    relLevelPath 1 = "./" ∧
    relLevelPath 2 = "../" ∧
    (∀ l : Nat, relLevelPath (l + 3) = "../" ++ relLevelPath (l + 2)) := by
  refine ⟨?_, rfl, rfl, ?_⟩
  · intro nm h
    have hb : (nm == "*") = false := beq_eq_false_iff_ne.mpr h
    have h1 : (analyzePythonFile (Except.ok "")
        (some [PyNode.importFrom (some "utils") 2 [nm]])).imports_from
        = [if nm == "*" then importFromPath (some "utils") 2 ++ ".*"
           else importFromPath (some "utils") 2 ++ "." ++ nm] := rfl
    rw [h1]
    simp only [hb, Bool.false_eq_true, if_false]
    have hmp : importFromPath (some "utils") 2 ++ "." = "../utils." := by decide
    rw [hmp]
  · intro l
    show (if l + 3 > 1 then strTimes "../" (l + 3 - 1) else "./")
        = "../" ++ (if l + 2 > 1 then strTimes "../" (l + 2 - 1) else "./")
    rw [if_pos (by omega), if_pos (by omega)]
    have h : l + 3 - 1 = (l + 2 - 1) + 1 := by omega
    rw [h]
    rfl

/-- C6 witness at the concrete import name helper and level 3 versus 4. -/
theorem c6_witness :
    (analyzePythonFile (Except.ok "")
        (some [PyNode.importFrom (some "utils") 2 ["helper"]])).imports_from
      = ["../utils.helper"] ∧
    relLevelPath 4 = "../" ++ relLevelPath 3 :=
  ⟨c6_relative_import.1 "helper" (by decide), c6_relative_import.2.2.2 1⟩

theorem foldlPreserves {α β : Type} (P : α → Prop) (g : α → β → α)
    (hg : ∀ a b, P a → P (g a b)) : ∀ (l : List β) (a : α), P a → P (l.foldl g a) := by
  intro l
  induction l with
  | nil => intro a ha; exact ha
  | cons b t ih => intro a ha; exact ih _ (hg a b ha)

theorem pyEnvStep_nodup (acc : List String) (m : String) (h : acc.Nodup) :
    (pyEnvStep acc m).Nodup := by
  unfold pyEnvStep
  split
  · split
    · rename_i hmem
      have hnm : m ∉ acc := by simpa using hmem
      simp [List.nodup_append, h, hnm]
    · exact h
  · exact h

theorem jsEnvStep_nodup (acc : List String) (m : String) (h : acc.Nodup) :
    (jsEnvStep acc m).Nodup := by
  unfold jsEnvStep
  split
  · rename_i hmem
    have hnm : m ∉ acc := by simpa using hmem
    simp [List.nodup_append, h, hnm]
  · exact h

theorem pyEnvVars_nodup (content : String) : (pyEnvVars content).Nodup := by
  unfold pyEnvVars
  exact foldlPreserves (fun l => l.Nodup) _
    (fun a r ha => foldlPreserves (fun l => l.Nodup) pyEnvStep pyEnvStep_nodup _ a ha)
    pyEnvPatterns [] List.nodup_nil

theorem jsEnvVars_nodup (content : String) : (jsEnvVars content).Nodup := by
  unfold jsEnvVars
  exact foldlPreserves (fun l => l.Nodup) _
    (fun a r ha => foldlPreserves (fun l => l.Nodup) jsEnvStep jsEnvStep_nodup _ a ha)
    jsEnvPatterns [] List.nodup_nil

/-- C8: the env-var list of a file fact never repeats a name — however many
times and through however many of the recognized reference patterns a
variable is mentioned, at most one entry results — and on the concrete text
that references A_B through three different patterns the scan returns the
single entry A_B. -/
theorem c8_env_dedup :
    (∀ (readRes : Except String String) (parseRes : Option (List PyNode)),
        (analyzePythonFile readRes parseRes).env_vars.Nodup) ∧
    (∀ readRes : Except String String,
        (analyzeJavascriptFile readRes).env_vars.Nodup) ∧
    pyEnvVars "os.environ.get(\"A_B\")os.getenv(\"A_B\")settings.A_B" = ["A_B"] := by
  refine ⟨?_, ?_, by decide⟩
  · intro readRes parseRes
    cases readRes with
    | error e => exact List.nodup_nil
    | ok content =>
        cases parseRes with
        | none => exact pyEnvVars_nodup content
        | some tree => exact pyEnvVars_nodup content
  · intro readRes
    cases readRes with
    | error e => exact List.nodup_nil
    | ok content => exact jsEnvVars_nodup content

theorem decoStep_exports (nm : String) (a : Analysis) (d : PyDec) :
    (decoStep nm a d).exports = a.exports := by
  rcases d with ⟨objName, methodName, firstArg⟩ | _
  · rcases objName with _ | obj
    · rfl
    · rcases firstArg with _ | path
      · simp only [decoStep]
        split <;> rfl
      · simp only [decoStep]
        split <;> rfl
  · rfl

theorem decoFold_exports (nm : String) (ds : List PyDec) (a : Analysis) :
    (ds.foldl (decoStep nm) a).exports = a.exports := by
  induction ds generalizing a with
  | nil => rfl
  | cons d t ih => rw [List.foldl_cons, ih, decoStep_exports]

theorem stepNode_exports (a : Analysis) (n : PyNode) :
    (stepNode a n).exports = a.exports ++ (exportDescr n).toList := by
  cases n with
  | imp names => simp [stepNode, exportDescr]
  | importFrom m l names => simp [stepNode, exportDescr]
  | other body => simp [stepNode, exportDescr]
  | classDef name body =>
      by_cases h : pyStartsWith name "_" = true
      · simp [stepNode, exportDescr, h]
      · simp only [Bool.not_eq_true] at h
        simp [stepNode, exportDescr, h]
  | funcDef async name args decs body =>
      show (decs.foldl (decoStep name) _).exports = _
      rw [decoFold_exports]
      by_cases h : pyStartsWith name "_" = true
      · simp [exportDescr, h]
      · simp only [Bool.not_eq_true] at h
        simp [exportDescr, h]

theorem foldl_stepNode_exports (ns : List PyNode) (a : Analysis) :
    (ns.foldl stepNode a).exports = a.exports ++ ns.filterMap exportDescr := by
  induction ns generalizing a with
  | nil => simp
  | cons n t ih =>
      rw [List.foldl_cons, ih, stepNode_exports, List.filterMap_cons]
      cases h : exportDescr n with
      | none => simp
      | some d => simp

theorem collectDefsAux_nil (k : Nat) : collectDefsAux k [] = [] := by
  cases k <;> rfl

theorem sizeL_eq_zero {l : List PyNode} (h : sizeL l = 0) : l = [] := by
  cases l with
  | nil => rfl
  | cons n t =>
      have := PyNode.size_pos n
      simp [sizeL] at h
      omega

theorem collectDefsAux_fuel : ∀ (k1 : Nat) (l : List PyNode) (k2 : Nat),
    sizeL l ≤ k1 → sizeL l ≤ k2 → collectDefsAux k1 l = collectDefsAux k2 l := by
  intro k1
  induction k1 with
  | zero =>
      intro l k2 h1 _
      have : l = [] := sizeL_eq_zero (by omega)
      subst this
      rw [collectDefsAux_nil, collectDefsAux_nil]
  | succ k1 ih =>
      intro l k2 h1 h2
      cases l with
      | nil => rw [collectDefsAux_nil, collectDefsAux_nil]
      | cons n rest =>
          have hsz : sizeL (n :: rest) = PyNode.size n + sizeL rest := rfl
          have hch := size_children_exact n
          cases k2 with
          | zero =>
              have := PyNode.size_pos n
              omega
          | succ k2 =>
              show ((match exportDescr n with
                      | some d => [d]
                      | none => []) ++ collectDefsAux k1 n.children)
                    ++ collectDefsAux k1 rest
                  = ((match exportDescr n with
                      | some d => [d]
                      | none => []) ++ collectDefsAux k2 n.children)
                    ++ collectDefsAux k2 rest
              rw [ih n.children k2 (by omega) (by omega), ih rest k2 (by omega) (by omega)]

theorem collectDefsL_cons (n : PyNode) (rest : List PyNode) :
    collectDefsL (n :: rest)
      = ((exportDescr n).toList ++ collectDefsL n.children) ++ collectDefsL rest := by
  have hch := size_children_exact n
  have hpos := PyNode.size_pos n
  obtain ⟨m, hm⟩ : ∃ m, sizeL (n :: rest) = m + 1 :=
    ⟨sizeL (n :: rest) - 1, by simp [sizeL]; omega⟩
  show collectDefsAux (sizeL (n :: rest)) (n :: rest) = _
  rw [hm]
  show ((match exportDescr n with
          | some d => [d]
          | none => []) ++ collectDefsAux m n.children) ++ collectDefsAux m rest
      = ((exportDescr n).toList ++ collectDefsL n.children) ++ collectDefsL rest
  have hsz : sizeL (n :: rest) = PyNode.size n + sizeL rest := rfl
  rw [collectDefsAux_fuel m n.children (sizeL n.children) (by omega) (by omega),
    collectDefsAux_fuel m rest (sizeL rest) (by omega) (by omega)]
  cases exportDescr n <;> rfl

theorem collectDefsL_append : ∀ (a b : List PyNode),
    collectDefsL (a ++ b) = collectDefsL a ++ collectDefsL b := by
  intro a b
  induction a with
  | nil =>
      show collectDefsL b = collectDefsL [] ++ collectDefsL b
      rfl
  | cons n t ih =>
      rw [List.cons_append, collectDefsL_cons, collectDefsL_cons, ih]
      simp [List.append_assoc]

theorem walk_filterMap_mem : ∀ (k : Nat) (q : List PyNode), sizeL q ≤ k →
    ∀ x, (x ∈ (walk q).filterMap exportDescr ↔ x ∈ collectDefsL q) := by
  intro k
  induction k with
  | zero =>
      intro q hq x
      have : q = [] := sizeL_eq_zero (by omega)
      subst this
      simp [walk_nil]
      intro h
      cases h
  | succ k ih =>
      intro q hq x
      cases q with
      | nil =>
          simp [walk_nil]
          intro h
          cases h
      | cons n rest =>
          have hch := size_children_exact n
          have hsz : sizeL (n :: rest) = PyNode.size n + sizeL rest := rfl
          have hle : sizeL (rest ++ n.children) ≤ k := by
            rw [sizeL_append]
            omega
          have ihq := ih (rest ++ n.children) hle x
          rw [collectDefsL_append, List.mem_append] at ihq
          rw [walk_cons, collectDefsL_cons, List.filterMap_cons]
          cases hd : exportDescr n with
          | none =>
              rw [ihq]
              simp [List.mem_append]
              tauto
          | some d =>
              rw [List.mem_cons, ihq]
              simp [List.mem_append]
              tauto

/-- C2 amended: a descriptor is among the exports of the analyzed file
exactly when it is the descriptor of a function or class definition at any
nesting depth (the AST walk descends into bodies, so nested functions and
class methods are exported too) whose name does not start with an
underscore. -/
theorem c2_amended_exports (content : String) (body : List PyNode) (x : String) :
    x ∈ (analyzePythonFile (Except.ok content) (some body)).exports
      ↔ x ∈ collectDefsL body := by
  have h1 : (analyzePythonFile (Except.ok content) (some body)).exports
      = (walk body).filterMap exportDescr := by
    show (structuralFold body).exports = _
    unfold structuralFold
    rw [foldl_stepNode_exports]
    rfl
  rw [h1]
  exact walk_filterMap_mem (sizeL body) body (Nat.le_refl _) x

theorem mem_setAdd_left {l : List String} {x : String} (y : String) (h : x ∈ l) :
    x ∈ setAdd l y := by
  unfold setAdd
  split
  · exact h
  · exact List.mem_append_left _ h

theorem mem_setAdd_self (l : List String) (x : String) : x ∈ setAdd l x := by
  unfold setAdd
  split
  · rename_i h
    simpa using h
  · exact List.mem_append_right _ (List.mem_singleton.mpr rfl)

theorem mem_foldl_setAdd : ∀ (ys acc : List String) (x : String),
    (x ∈ acc ∨ x ∈ ys) → x ∈ ys.foldl setAdd acc := by
  intro ys
  induction ys with
  | nil =>
      intro acc x h
      rcases h with h | h
      · exact h
      · cases h
  | cons y t ih =>
      intro acc x h
      rw [List.foldl_cons]
      apply ih
      rcases h with h | h
      · exact Or.inl (mem_setAdd_left y h)
      · rcases List.mem_cons.mp h with rfl | h2
        · exact Or.inl (mem_setAdd_self acc x)
        · exact Or.inr h2

theorem folderStep_imports_mono (patterns folderParts : List String)
    (fa : FolderAnalysis) (f : SrcFile) {x : String} (h : x ∈ fa.all_imports) :
    x ∈ (folderStep patterns folderParts fa f).all_imports := by
  unfold folderStep
  split
  · exact h
  · cases hfa : fileAnalysisOf f with
    | none => simpa [hfa] using h
    | some a =>
        simp only [hfa]
        exact mem_foldl_setAdd _ _ _ (Or.inl h)

theorem foldl_folderStep_imports_mono (patterns folderParts : List String) :
    ∀ (files : List SrcFile) (fa : FolderAnalysis) {x : String}, x ∈ fa.all_imports →
      x ∈ (files.foldl (folderStep patterns folderParts) fa).all_imports := by
  intro files
  induction files with
  | nil => intro fa x h; exact h
  | cons g t ih =>
      intro fa x h
      rw [List.foldl_cons]
      exact ih _ (folderStep_imports_mono patterns folderParts fa g h)

theorem c3_aux (patterns folderParts : List String) (f : SrcFile) (a : Analysis)
    (imp : String)
    (hig : shouldIgnoreRel patterns (folderParts ++ [f.name]) = false)
    (hfa : fileAnalysisOf f = some a)
    (himp : imp ∈ a.imports_from) :
    ∀ (files : List SrcFile) (fa : FolderAnalysis), f ∈ files →
      imp ∈ (files.foldl (folderStep patterns folderParts) fa).all_imports := by
  intro files
  induction files with
  | nil => intro fa h; cases h
  | cons g t ih =>
      intro fa hmem
      rw [List.foldl_cons]
      rcases List.mem_cons.mp hmem with rfl | h2
      · apply foldl_folderStep_imports_mono
        unfold folderStep
        rw [hig]
        simp only [Bool.false_eq_true, if_false, hfa]
        exact mem_foldl_setAdd _ _ _ (Or.inr himp)
      · exact ih _ h2

/-- C3 amended: every resolved from-import path extracted from an eligible
file of a folder is a member of the aggregated import set; the module names
of absolute import statements stay in the per-file imports list and are not
folded into the aggregate (see the counterexample). -/
theorem c3_amended_imports (patterns folderParts : List String)
    (files : List SrcFile) (f : SrcFile) (a : Analysis) (imp : String)
    (hmem : f ∈ files)
    (hig : shouldIgnoreRel patterns (folderParts ++ [f.name]) = false)
    (hfa : fileAnalysisOf f = some a)
    (himp : imp ∈ a.imports_from) :
    imp ∈ (analyzeFolder patterns folderParts files).all_imports :=
  c3_aux patterns folderParts f a imp hig hfa himp files emptyFolderAnalysis hmem

/-- C3 witness: the from-import of the concrete one-file folder reaches the
aggregate. -/
theorem c3_amended_witness :
    "./utils.x" ∈ (analyzeFolder [] [] [c3WFile]).all_imports :=
  c3_amended_imports [] [] [c3WFile] c3WFile
    (analyzePythonFile c3WFile.readRes c3WFile.parseRes) "./utils.x"
    (List.mem_singleton.mpr rfl) (by decide) rfl (by decide)

theorem strMk_toList (s : String) : String.mk s.toList = s := by
  cases s
  rfl

theorem dropWhile_eq_self_of_all {p : Char → Bool} {l : List Char}
    (h : ∀ c ∈ l, p c = false) : l.dropWhile p = l := by
  cases l with
  | nil => rfl
  | cons c t =>
      have hc := h c (List.mem_cons_self c t)
      simp [List.dropWhile, hc]

theorem rstripSlash_of_no_slash {P : String} (h : strHasChar P '/' = false) :
    rstripSlash P = P := by
  unfold rstripSlash
  have hmem : ∀ c ∈ P.toList.reverse, (c == '/') = false := by
    intro c hc
    have hcl : c ∈ P.toList := List.mem_reverse.mp hc
    have hne : ¬(c = '/') := by
      intro he
      subst he
      unfold strHasChar at h
      simp at h
      exact h hcl
    simp [hne]
  rw [dropWhile_eq_self_of_all hmem, List.reverse_reverse, strMk_toList]

/-- C5 amended: for a rule pattern holding no path separator and no star
wildcard, any path one of whose components equals the pattern is ignored —
the matching directory itself and every descendant path beneath it.  For
wildcard patterns a component merely glob-matching the pattern does not by
itself make the path ignored (see the counterexample). -/
theorem c5_amended (patterns : List String) (P : String) (parts : List String)
    (hP : P ∈ patterns)
    (hslash : strHasChar P '/' = false)
    (hstar : strHasChar P '*' = false)
    (hmem : P ∈ parts) :
    shouldIgnoreRel patterns parts = true := by
  have hne : parts ≠ [] := by
    intro h
    subst h
    cases hmem
  have hlen : 0 < parts.length := List.length_pos.mpr hne
  unfold shouldIgnoreRel
  rw [List.any_eq_true]
  refine ⟨parts.length - 1, List.mem_range.mpr (by omega), ?_⟩
  rw [List.any_eq_true]
  refine ⟨P, hP, ?_⟩
  simp only [rstripSlash_of_no_slash hslash, Bool.or_eq_true]
  right
  have hcond : (!(strHasChar P '/') && !(strHasChar P '*')) = true := by
    rw [hslash, hstar]
    rfl
  rw [if_pos hcond]
  have htk : parts.length - 1 + 1 = parts.length := by omega
  rw [htk, List.take_length, List.any_eq_true]
  exact ⟨P, hmem, by simp⟩

/-- C5 witness: a literal rule name appearing as a middle component hides
the descendant path. -/
theorem c5_amended_witness :
    shouldIgnoreRel ["node_modules"] ["a", "node_modules", "b"] = true :=
  c5_amended ["node_modules"] "node_modules" ["a", "node_modules", "b"]
    (by decide) (by decide) (by decide) (by decide)

theorem stringTake_length_le (s : String) (n : Nat) : (stringTake s n).length ≤ n := by
  show (s.toList.take n).length ≤ n
  simp [List.length_take]

theorem splitLimit_empty (sep : Char) (m : Nat) : splitLimit "" sep m = [""] := by
  cases m <;> rfl

theorem gitLineRecord_eq (line commitHash date message d : String) (ds : List String)
    (hsp : splitLimit line '|' 2 = [commitHash, date, message])
    (hws : pySplitWs date = d :: ds) :
    gitLineRecord line
      = some (ChangeRec.mk d (stringTake message 100) (stringTake commitHash 7)) := by
  have hne : ¬((line == "") = true) := by
    intro he
    have hl : line = "" := by simpa using he
    rw [hl, splitLimit_empty] at hsp
    simp at hsp
  unfold gitLineRecord
  rw [if_neg hne]
  show (match splitLimit line '|' 2 with
        | [commitHash, date, message] =>
            (match pySplitWs date with
             | [] => none
             | d :: _ =>
                 some (ChangeRec.mk d (stringTake message 100)
                   (stringTake commitHash 7)))
        | _ => none)
      = some (ChangeRec.mk d (stringTake message 100) (stringTake commitHash 7))
  rw [hsp]
  show (match pySplitWs date with
        | [] => none
        | d :: _ =>
            some (ChangeRec.mk d (stringTake message 100) (stringTake commitHash 7)))
      = some (ChangeRec.mk d (stringTake message 100) (stringTake commitHash 7))
  rw [hws]

theorem parseGitLine_record (line : String) (h : gitLineSafe line = true) :
    parseGitLine line = Except.ok (gitLineRecord line) := by
  unfold parseGitLine gitLineRecord
  by_cases he : (line == "") = true
  · rw [if_pos he, if_pos he]
  · rw [if_neg he, if_neg he]
    unfold gitLineSafe at h
    cases hsp : splitLimit line '|' 2 with
    | nil => rfl
    | cons p0 t0 =>
        cases t0 with
        | nil => rfl
        | cons p1 t1 =>
            cases t1 with
            | nil => rfl
            | cons p2 t2 =>
                cases t2 with
                | nil =>
                    rw [hsp] at h
                    cases hws : pySplitWs p1 with
                    | nil => simp [hws] at h
                    | cons d ds =>
                        show (match pySplitWs p1 with
                              | [] => Except.error "IndexError"
                              | d :: _ =>
                                  Except.ok (some (ChangeRec.mk d
                                    (stringTake p2 100) (stringTake p0 7))))
                            = Except.ok (match pySplitWs p1 with
                              | [] => none
                              | d :: _ =>
                                  some (ChangeRec.mk d (stringTake p2 100)
                                    (stringTake p0 7)))
                        rw [hws]
                | cons p3 t3 => rfl

theorem parseGitLines_record : ∀ ls : List String,
    (∀ line ∈ ls, gitLineSafe line = true) →
    parseGitLines ls = Except.ok (ls.filterMap gitLineRecord) := by
  intro ls
  induction ls with
  | nil => intro _; rfl
  | cons line t ih =>
      intro h
      have h1 := parseGitLine_record line (h line (List.mem_cons_self line t))
      have h2 := ih (fun l hl => h l (List.mem_cons_of_mem _ hl))
      show (match parseGitLine line with
            | Except.error e => Except.error e
            | Except.ok none => parseGitLines t
            | Except.ok (some r) =>
                match parseGitLines t with
                | Except.error e => Except.error e
                | Except.ok rs => Except.ok (r :: rs))
          = Except.ok ((line :: t).filterMap gitLineRecord)
      rw [h1, List.filterMap_cons]
      cases hr : gitLineRecord line with
      | none => exact h2
      | some r => rw [h2]

theorem gitLineRecord_bounds (line : String) (r : ChangeRec)
    (h : gitLineRecord line = some r) :
    r.hash.length ≤ 7 ∧ r.message.length ≤ 100 := by
  unfold gitLineRecord at h
  split at h
  · cases h
  · split at h
    · split at h
      · cases h
      · injection h with h2
        subst h2
        exact ⟨stringTake_length_le _ _, stringTake_length_le _ _⟩
    · cases h

/-- C9 amended: when the git invocation itself succeeds or merely exits
nonzero, the history query never raises: a nonzero exit yields the empty
list, and a successful run whose output is well formed (at most ten lines —
the -n 10 request — with a nonempty date token per record line) yields
exactly the per-line records of the output, in the order git printed them
(newest first): at most ten records, each carrying the leading token of its
date field, a commit-id prefix of at most 7 characters and a message of at
most 100 characters.  Only a missing git executable escapes as an exception
(see the counterexample). -/
theorem c9_amended_history (res : GitResult)
    (hnb : res ≠ GitResult.noGit)
    (hwf : ∀ s, res = GitResult.output s →
      (splitChar (pyStrip s) '\n').length ≤ 10 ∧
      ∀ line ∈ splitChar (pyStrip s) '\n', gitLineSafe line = true) :
    ∃ l, getGitChanges res = Except.ok l ∧ l.length ≤ 10 ∧
      (∀ r ∈ l, r.hash.length ≤ 7 ∧ r.message.length ≤ 100) ∧
      (res = GitResult.exitErr → l = []) ∧
      (∀ s, res = GitResult.output s →
        l = (splitChar (pyStrip s) '\n').filterMap gitLineRecord) ∧
      (∀ line commitHash date message d ds,
        splitLimit line '|' 2 = [commitHash, date, message] →
        pySplitWs date = d :: ds →
        gitLineRecord line
          = some (ChangeRec.mk d (stringTake message 100)
              (stringTake commitHash 7))) := by
  cases res with
  | noGit => exact absurd rfl hnb
  | exitErr =>
      refine ⟨[], rfl, ?_, ?_, ?_, ?_, ?_⟩
      · simp
      · intro r hr
        cases hr
      · intro _
        rfl
      · intro s2 hs2
        cases hs2
      · intro line commitHash date message d ds hsp hws
        exact gitLineRecord_eq line commitHash date message d ds hsp hws
  | output s =>
      obtain ⟨h10, hsafe⟩ := hwf s rfl
      by_cases he : (pyStrip s == "") = true
      · have hseq : pyStrip s = "" := by simpa using he
        refine ⟨[], ?_, ?_, ?_, ?_, ?_, ?_⟩
        · show (if pyStrip s == "" then Except.ok []
                else parseGitLines (splitChar (pyStrip s) '\n')) = Except.ok []
          rw [if_pos he]
        · simp
        · intro r hr
          cases hr
        · intro hc
          cases hc
        · intro s2 hs2
          injection hs2 with hse
          subst hse
          rw [hseq]
          rfl
        · intro line commitHash date message d ds hsp hws
          exact gitLineRecord_eq line commitHash date message d ds hsp hws
      · have hrec := parseGitLines_record _ hsafe
        refine ⟨(splitChar (pyStrip s) '\n').filterMap gitLineRecord,
          ?_, ?_, ?_, ?_, ?_, ?_⟩
        · show (if pyStrip s == "" then Except.ok []
                else parseGitLines (splitChar (pyStrip s) '\n'))
              = Except.ok ((splitChar (pyStrip s) '\n').filterMap gitLineRecord)
          rw [if_neg he]
          exact hrec
        · exact Nat.le_trans (List.length_filterMap_le _ _) h10
        · intro r hr
          obtain ⟨line, _, hrl⟩ := List.mem_filterMap.mp hr
          exact gitLineRecord_bounds line r hrl
        · intro hc
          cases hc
        · intro s2 hs2
          injection hs2 with hse
          subst hse
          rfl
        · intro line commitHash date message d ds hsp hws
          exact gitLineRecord_eq line commitHash date message d ds hsp hws

/-- C9 witness: one well-formed log line yields exactly its bounded record,
in line order. -/
theorem c9_amended_witness :
    ∃ l, getGitChanges (GitResult.output
        "abcdef1234567890abcdef|2024-01-02 10:11:12 +0000|fix the bug")
      = Except.ok l ∧ l.length ≤ 10 ∧
      (∀ r ∈ l, r.hash.length ≤ 7 ∧ r.message.length ≤ 100) ∧
      (GitResult.output
          "abcdef1234567890abcdef|2024-01-02 10:11:12 +0000|fix the bug"
        = GitResult.exitErr → l = []) ∧
      (∀ s, GitResult.output
          "abcdef1234567890abcdef|2024-01-02 10:11:12 +0000|fix the bug"
        = GitResult.output s →
        l = (splitChar (pyStrip s) '\n').filterMap gitLineRecord) ∧
      (∀ line commitHash date message d ds,
        splitLimit line '|' 2 = [commitHash, date, message] →
        pySplitWs date = d :: ds →
        gitLineRecord line
          = some (ChangeRec.mk d (stringTake message 100)
              (stringTake commitHash 7))) :=
  c9_amended_history _ (by decide)
    (fun s hs => by cases hs; exact ⟨by decide, by decide⟩)

theorem find_append_single (m : List (List String × Nat)) (f : List String) (t : Nat)
    (h : m.any (fun p => p.1 == f) = false) :
    (m ++ [(f, t)]).find? (fun p => p.1 == f) = some (f, t) := by
  induction m with
  | nil => exact List.find?_cons_of_pos _ (by simp)
  | cons p m ih =>
      simp only [List.any_cons, Bool.or_eq_false_iff] at h
      obtain ⟨h1, h2⟩ := h
      rw [List.cons_append, List.find?_cons_of_neg _ (by simp [h1])]
      exact ih h2

theorem find_map_store (m : List (List String × Nat)) (f : List String) (t : Nat)
    (h : m.any (fun p => p.1 == f) = true) :
    (m.map (fun p => if p.1 == f then (f, t) else p)).find? (fun p => p.1 == f)
      = some (f, t) := by
  induction m with
  | nil => simp at h
  | cons p m ih =>
      by_cases hp : (p.1 == f) = true
      · rw [List.map_cons, if_pos hp]
        exact List.find?_cons_of_pos _ (by simp)
      · simp only [List.any_cons, Bool.or_eq_true] at h
        have h2 : m.any (fun p => p.1 == f) = true := by
          rcases h with h | h
          · exact absurd h hp
          · exact h
        rw [List.map_cons, if_neg hp, List.find?_cons_of_neg _ (by simpa using hp)]
        exact ih h2

theorem find_map_other (m : List (List String × Nat)) (f g : List String) (t : Nat)
    (hne : g ≠ f) :
    (m.map (fun p => if p.1 == f then (f, t) else p)).find? (fun p => p.1 == g)
      = m.find? (fun p => p.1 == g) := by
  induction m with
  | nil => rfl
  | cons p m ih =>
      rw [List.map_cons]
      by_cases hp : (p.1 == f) = true
      · have hpf : p.1 = f := by simpa using hp
        have h1 : (p.1 == g) = false := by
          rw [hpf]
          exact beq_eq_false_iff_ne.mpr (fun e => hne e.symm)
        have h2 : ((f, t).1 == g) = false :=
          beq_eq_false_iff_ne.mpr (fun e => hne e.symm)
        rw [if_pos hp, List.find?_cons_of_neg _ (by simp [h2]),
          List.find?_cons_of_neg _ (by simp [h1])]
        exact ih
      · rw [if_neg hp]
        by_cases hg : (p.1 == g) = true
        · rw [List.find?_cons_of_pos _ (by simp [hg]),
            List.find?_cons_of_pos _ (by simp [hg])]
        · rw [List.find?_cons_of_neg _ (by simp [hg]),
            List.find?_cons_of_neg _ (by simp [hg])]
          exact ih

theorem lookupTime_store_self (m : List (List String × Nat)) (f : List String) (t : Nat) :
    lookupTime (storeTime m f t) f = t := by
  by_cases hany : (m.any fun p => p.1 == f) = true
  · have hst : storeTime m f t = m.map (fun p => if p.1 == f then (f, t) else p) := by
      unfold storeTime
      rw [if_pos hany]
    rw [hst]
    unfold lookupTime
    rw [find_map_store m f t hany]
  · have hst : storeTime m f t = m ++ [(f, t)] := by
      unfold storeTime
      rw [if_neg hany]
    rw [hst]
    unfold lookupTime
    rw [find_append_single m f t (Bool.eq_false_iff.mpr hany)]

theorem find_append_single_other (m : List (List String × Nat)) (f g : List String)
    (t : Nat) (hne : g ≠ f) :
    (m ++ [(f, t)]).find? (fun p => p.1 == g) = m.find? (fun p => p.1 == g) := by
  induction m with
  | nil =>
      show List.find? _ [(f, t)] = none
      rw [List.find?_cons_of_neg _
        (by simp [beq_eq_false_iff_ne.mpr (fun e => hne e.symm)])]
      rfl
  | cons p m ih =>
      rw [List.cons_append]
      by_cases hg : (p.1 == g) = true
      · rw [List.find?_cons_of_pos _ (by simp [hg]),
          List.find?_cons_of_pos _ (by simp [hg])]
      · rw [List.find?_cons_of_neg _ (by simp [hg]),
          List.find?_cons_of_neg _ (by simp [hg])]
        exact ih

theorem lookupTime_store_other (m : List (List String × Nat)) (f g : List String)
    (t : Nat) (hne : g ≠ f) :
    lookupTime (storeTime m f t) g = lookupTime m g := by
  by_cases hany : (m.any fun p => p.1 == f) = true
  · have hst : storeTime m f t = m.map (fun p => if p.1 == f then (f, t) else p) := by
      unfold storeTime
      rw [if_pos hany]
    rw [hst]
    unfold lookupTime
    rw [find_map_other m f g t hne]
  · have hst : storeTime m f t = m ++ [(f, t)] := by
      unfold storeTime
      rw [if_neg hany]
    rw [hst]
    unfold lookupTime
    rw [find_append_single_other m f g t hne]

theorem dropLast_ne_self {f : List String} (h : f ≠ []) : f.dropLast ≠ f := by
  intro he
  have h1 : f.dropLast.length = f.length - 1 := List.length_dropLast f
  have h2 : 0 < f.length := List.length_pos.mpr h
  rw [he] at h1
  omega

theorem createGroundTruth_not_ignored (patterns : List String) (g : List String)
    (h : shouldIgnoreRel patterns g = false) :
    createGroundTruth patterns g = [g] := by
  unfold createGroundTruth
  rw [h]
  rfl

theorem update_defer (patterns : List String) (fs : List (List String))
    (st : WatchState) (f : List String) (now : Nat)
    (h : now - lookupTime st.last_update f < debounceSeconds) :
    updateGroundTruth patterns fs st f now
      = ({ st with pending_updates := pendAdd st.pending_updates f }, []) := by
  unfold updateGroundTruth shouldProcess
  rw [if_pos h]

theorem update_fire (patterns : List String) (fs : List (List String))
    (st : WatchState) (f : List String) (now : Nat)
    (h : debounceSeconds ≤ now - lookupTime st.last_update f)
    (hex : fs.contains f = true) :
    updateGroundTruth patterns fs st f now
      = ({ st with last_update := storeTime st.last_update f now },
         (createGroundTruth patterns f).map (fun g => (g, now)) ++
           parentRegen patterns fs f now) := by
  unfold updateGroundTruth shouldProcess
  rw [if_neg (by omega), hex]
  rfl

theorem parentRegen_fst (patterns : List String) (fs : List (List String))
    (g : List String) (now : Nat) :
    ∀ r ∈ parentRegen patterns fs g now, r.1 = g.dropLast := by
  intro r hr
  unfold parentRegen at hr
  split at hr
  · unfold createGroundTruth at hr
    split at hr
    · simp at hr
    · simp at hr
      rw [hr]
  · cases hr

theorem filter_parentRegen_nil (patterns : List String) (fs : List (List String))
    (g f : List String) (now : Nat) (hne : g.dropLast ≠ f) (pred : Nat → Bool) :
    (parentRegen patterns fs g now).filter (fun r => r.1 == f && pred r.2) = [] := by
  rw [List.filter_eq_nil_iff]
  intro r hr
  have h1 := parentRegen_fst patterns fs g now r hr
  simp [h1, beq_eq_false_iff_ne.mpr hne]

/-- C10: whenever a folder's re-analysis actually fires, the parent artifact
is rebuilt in the very same step by a computation that never consults the
debounce state (the regenerated pair is a function of the folder, the
filesystem and the clock only — the state is universally quantified), the
pending set is untouched, and in the timestamp map only the fired folder's
entry changes; with an existing, unignored parent under the root the log of
the step is exactly target then parent. -/
theorem c10_parent_frame (patterns : List String) (fs : List (List String))
    (st : WatchState) (f : List String) (now : Nat)
    (hfire : debounceSeconds ≤ now - lookupTime st.last_update f)
    (hex : fs.contains f = true)
    (hig : shouldIgnoreRel patterns f = false) :
    (updateGroundTruth patterns fs st f now).2
        = (f, now) :: parentRegen patterns fs f now ∧
    (updateGroundTruth patterns fs st f now).1.pending_updates
        = st.pending_updates ∧
    lookupTime (updateGroundTruth patterns fs st f now).1.last_update f = now ∧
    (∀ g, g ≠ f →
      lookupTime (updateGroundTruth patterns fs st f now).1.last_update g
        = lookupTime st.last_update g) ∧
    (f ≠ [] → fs.contains f.dropLast = true →
      shouldIgnoreRel patterns f.dropLast = false →
      (updateGroundTruth patterns fs st f now).2 = [(f, now), (f.dropLast, now)]) := by
  rw [update_fire patterns fs st f now hfire hex,
    createGroundTruth_not_ignored patterns f hig]
  refine ⟨rfl, rfl, lookupTime_store_self _ _ _,
    fun g hg => lookupTime_store_other _ _ _ _ hg, ?_⟩
  intro hne hpex hpig
  show [(f, now)] ++ parentRegen patterns fs f now = _
  unfold parentRegen
  rw [if_pos ?hc, createGroundTruth_not_ignored patterns f.dropLast hpig]
  · rfl
  case hc =>
    have h1 : (f.dropLast == f) = false :=
      beq_eq_false_iff_ne.mpr (dropLast_ne_self hne)
    rw [h1, hpex]
    rfl

/-- C10 witness: the parent ["a"] is inside its own debounce window (its
stamp equals the clock), yet the fired update of ["a", "b"] still rebuilds
it, leaves the pending set empty, and rewrites only the timestamp of
["a", "b"]. -/
theorem c10_witness :
    (updateGroundTruth [] [["a", "b"], ["a"]]
        (WatchState.mk [] [(["a"], 10)]) ["a", "b"] 10).2
        = (["a", "b"], 10) :: parentRegen [] [["a", "b"], ["a"]] ["a", "b"] 10 ∧
    (updateGroundTruth [] [["a", "b"], ["a"]]
        (WatchState.mk [] [(["a"], 10)]) ["a", "b"] 10).1.pending_updates = [] ∧
    lookupTime (updateGroundTruth [] [["a", "b"], ["a"]]
        (WatchState.mk [] [(["a"], 10)]) ["a", "b"] 10).1.last_update ["a", "b"] = 10 ∧
    (∀ g, g ≠ ["a", "b"] →
      lookupTime (updateGroundTruth [] [["a", "b"], ["a"]]
          (WatchState.mk [] [(["a"], 10)]) ["a", "b"] 10).1.last_update g
        = lookupTime [(["a"], 10)] g) ∧
    (["a", "b"] ≠ ([] : List String) →
      ([["a", "b"], ["a"]] : List (List String)).contains (["a", "b"] : List String).dropLast = true →
      shouldIgnoreRel [] (["a", "b"] : List String).dropLast = false →
      (updateGroundTruth [] [["a", "b"], ["a"]]
          (WatchState.mk [] [(["a"], 10)]) ["a", "b"] 10).2
        = [(["a", "b"], 10), ((["a", "b"] : List String).dropLast, 10)]) :=
  c10_parent_frame [] [["a", "b"], ["a"]] (WatchState.mk [] [(["a"], 10)])
    ["a", "b"] 10 (by decide) (by decide) (by decide)

/-- C4: two change events for the same fresh folder closer together than the
debounce window produce exactly one re-analysis of that folder before the
window elapses (at the first event) and exactly one more at the first sweep
after the window elapses — the second event only sets the single pending
flag that the sweep drains. -/
theorem c4_debounce (patterns : List String) (fs : List (List String))
    (f : List String) (t1 t2 s : Nat)
    (hne : f ≠ [])
    (hex : fs.contains f = true)
    (hig : shouldIgnoreRel patterns f = false)
    (ht1 : debounceSeconds ≤ t1)
    (h12 : t1 ≤ t2)
    (hwin : t2 < t1 + debounceSeconds)
    (hs : t1 + debounceSeconds ≤ s) :
    ((runTrace patterns fs initialWatchState
        [WEvent.change f t1, WEvent.change f t2, WEvent.sweep s]).2.filter
          (fun r => r.1 == f && decide (r.2 < t1 + debounceSeconds))).length = 1 ∧
    ((runTrace patterns fs initialWatchState
        [WEvent.change f t1, WEvent.change f t2, WEvent.sweep s]).2.filter
          (fun r => r.1 == f && decide (t1 + debounceSeconds ≤ r.2))).length = 1 := by
  have hD : debounceSeconds = 2 := rfl
  have hlu0 : lookupTime initialWatchState.last_update f = 0 := rfl
  have hfire1 : debounceSeconds ≤ t1 - lookupTime initialWatchState.last_update f := by
    rw [hlu0]
    omega
  have e1 : updateGroundTruth patterns fs initialWatchState f t1
      = (WatchState.mk [] [(f, t1)], (f, t1) :: parentRegen patterns fs f t1) := by
    rw [update_fire patterns fs initialWatchState f t1 hfire1 hex,
      createGroundTruth_not_ignored patterns f hig]
    rfl
  have hlu1 : lookupTime [(f, t1)] f = t1 := by
    unfold lookupTime
    rw [List.find?_cons_of_pos _ (by simp)]
  have hdefer : t2 - lookupTime (WatchState.mk [] [(f, t1)]).last_update f
      < debounceSeconds := by
    show t2 - lookupTime [(f, t1)] f < debounceSeconds
    rw [hlu1]
    omega
  have e2 : updateGroundTruth patterns fs (WatchState.mk [] [(f, t1)]) f t2
      = (WatchState.mk [f] [(f, t1)], []) := by
    rw [update_defer patterns fs (WatchState.mk [] [(f, t1)]) f t2 hdefer]
    rfl
  have hfire3 : debounceSeconds ≤ s - lookupTime (WatchState.mk ([] : List (List String)) [(f, t1)]).last_update f := by
    show debounceSeconds ≤ s - lookupTime [(f, t1)] f
    rw [hlu1]
    omega
  have hf3 : updateGroundTruth patterns fs (WatchState.mk [] [(f, t1)]) f s
      = (WatchState.mk [] (storeTime [(f, t1)] f s),
         (f, s) :: parentRegen patterns fs f s) := by
    rw [update_fire patterns fs (WatchState.mk [] [(f, t1)]) f s hfire3 hex,
      createGroundTruth_not_ignored patterns f hig]
    rfl
  have e3 : processPending patterns fs (WatchState.mk [f] [(f, t1)]) s
      = (WatchState.mk [] (storeTime [(f, t1)] f s),
         (f, s) :: parentRegen patterns fs f s) := by
    unfold processPending
    simp only [List.foldl_cons, List.foldl_nil, hf3]
    rfl
  have etr : (runTrace patterns fs initialWatchState
      [WEvent.change f t1, WEvent.change f t2, WEvent.sweep s]).2
      = ((f, t1) :: parentRegen patterns fs f t1) ++
        ([] ++ (((f, s) :: parentRegen patterns fs f s) ++ [])) := by
    simp only [runTrace, e1, e2, e3]
  have hd1 : decide (t1 < t1 + debounceSeconds) = true := decide_eq_true (by omega)
  have hd2 : decide (t1 + debounceSeconds ≤ t1) = false :=
    decide_eq_false (by omega)
  have hd3 : decide (s < t1 + debounceSeconds) = false := decide_eq_false (by omega)
  have hd4 : decide (t1 + debounceSeconds ≤ s) = true := decide_eq_true (by omega)
  have hpar1a := filter_parentRegen_nil patterns fs f f t1 (dropLast_ne_self hne)
    (fun t => decide (t < t1 + debounceSeconds))
  have hpar1b := filter_parentRegen_nil patterns fs f f t1 (dropLast_ne_self hne)
    (fun t => decide (t1 + debounceSeconds ≤ t))
  have hpar2a := filter_parentRegen_nil patterns fs f f s (dropLast_ne_self hne)
    (fun t => decide (t < t1 + debounceSeconds))
  have hpar2b := filter_parentRegen_nil patterns fs f f s (dropLast_ne_self hne)
    (fun t => decide (t1 + debounceSeconds ≤ t))
  rw [etr]
  constructor
  · simp only [List.filter_append, List.filter_cons, List.filter_nil]
    simp only [beq_self_eq_true, Bool.true_and, hd1, hd3, hpar1a, hpar2a]
    simp
  · simp only [List.filter_append, List.filter_cons, List.filter_nil]
    simp only [beq_self_eq_true, Bool.true_and, hd2, hd4, hpar1b, hpar2b]
    simp

/-- C4 witness on concrete folders and clock readings 5, 6 and 7. -/
theorem c4_witness :
    ((runTrace [] [["a", "b"], ["a"]] initialWatchState
        [WEvent.change ["a", "b"] 5, WEvent.change ["a", "b"] 6,
          WEvent.sweep 7]).2.filter
          (fun r => r.1 == ["a", "b"] && decide (r.2 < 5 + debounceSeconds))).length
        = 1 ∧
    ((runTrace [] [["a", "b"], ["a"]] initialWatchState
        [WEvent.change ["a", "b"] 5, WEvent.change ["a", "b"] 6,
          WEvent.sweep 7]).2.filter
          (fun r => r.1 == ["a", "b"] && decide (5 + debounceSeconds ≤ r.2))).length
        = 1 :=
  c4_debounce [] [["a", "b"], ["a"]] ["a", "b"] 5 6 7 (by decide) (by decide)
    (by decide) (by decide) (by decide) (by decide) (by decide)
